import Mathlib

/-!
Shallow embedding of the decoding core of `ttn-osem-integration`
(`lib/decoding/helpers.js` and `lib/decoding/index.js`), together with
theorems settling the specification claims about it.

Machine integers follow JavaScript semantics: the bitwise operators `|`
and `<<` operate on 32-bit two's-complement integers, modelled here on
`Int`/`Nat` with explicit reduction modulo `2^32`.
-/

deriving instance DecidableEq for Except

namespace TtnOsem

/-! ### JavaScript 32-bit integer semantics -/

/-- JS `ToUint32`: reduce an integer to its unsigned 32-bit residue. -/
def toUint32 (x : Int) : Nat := (x % 4294967296).toNat

/-- Interpret an unsigned 32-bit residue as a signed 32-bit integer
(two's complement), as JS bitwise operators do for their result. -/
def int32OfUInt32 (n : Nat) : Int :=
  if n < 2147483648 then (n : Int) else (n : Int) - 4294967296

/-- JS `a << s`: shift the 32-bit pattern of `a` left by `s mod 32`,
truncate to 32 bits, interpret as signed. -/
def jsShl (a : Int) (s : Nat) : Int :=
  int32OfUInt32 ((toUint32 a <<< (s % 32)) % 4294967296)

/-- JS `a | b`: bitwise or of the 32-bit patterns, interpreted as signed. -/
def jsOr (a b : Int) : Int :=
  int32OfUInt32 (Nat.lor (toUint32 a) (toUint32 b))

/-! ### `bytesToInt` (lib/decoding/helpers.js, lines 14-21)

```js
const bytesToInt = function bytesToInt (bytes) {
  let v = 0;
  for (let i = 0; i < bytes.length; i++) {
    v = v | Number(bytes[i] << (i * 8));
  }
  return v;
};
```
-/

/-- The loop of `bytesToInt`: `i` is the loop index, `v` the accumulator. -/
def bytesToIntAux : List Nat → Nat → Int → Int
  | [], _, v => v
  | b :: rest, i, v => bytesToIntAux rest (i + 1) (jsOr v (jsShl (b : Int) (i * 8)))

/-- `bytesToInt` from `lib/decoding/helpers.js`: little-endian byte merge
using JS 32-bit bitwise `|` and `<<`. -/
def bytesToInt (bytes : List Nat) : Int := bytesToIntAux bytes 0 0

/-- The little-endian unsigned value `Σ byte[i] * 2^(8*i)` that the spec
ascribes to `bytesToInt` (spec-side definition, for comparison). -/
def leSum : List Nat → Nat
  | [] => 0
  | b :: rest => b + 256 * leSum rest

/-! ### `findSensorIds` (lib/decoding/helpers.js, lines 47-82) -/

/-- JS `String.prototype.toLowerCase` on a single character (ASCII case
mapping, which is all the profiles' aliases use). -/
def jsCharToLower (c : Char) : Char :=
  if 'A' ≤ c ∧ c ≤ 'Z' then Char.ofNat (c.toNat + 32) else c

/-- JS `String.prototype.toLowerCase`. -/
def jsToLower (s : String) : String := String.mk (s.data.map jsCharToLower)

/-- A sensor as stored on a box: its `_id` and its descriptive string
attributes (`title`, `type`, `unit`, ...), modelled as an association
list since JS objects carry arbitrary keys. -/
structure Sensor where
  _id : String
  attrs : List (String × String)
deriving DecidableEq

/-- JS `sensor[sensorProp]`: attribute lookup, `none` when absent. -/
def Sensor.getAttr (s : Sensor) (name : String) : Option String :=
  s.attrs.lookup name

/-- The body of the sensor scan in `findSensorIds`: the sensor is skipped
when `sensor[sensorProp]` is falsy (absent or the empty string); otherwise
its lowercased value is compared against the lowercased aliases. -/
def attrMatches (s : Sensor) (sensorProp : String) (aliases : List String) : Bool :=
  match s.getAttr sensorProp with
  | none => false
  | some v => if v = "" then false else (aliases.map jsToLower).contains (jsToLower v)

/-- The two inner loops of `findSensorIds` for one phenomenon: try each
candidate attribute in order; for the first attribute for which some
sensor matches, return the `_id` of the first matching sensor and stop
(`foundIt` short-circuits the remaining attributes). -/
def matchRole (sensors : List Sensor) : List (String × List String) → Option String
  | [] => none
  | (sensorProp, aliases) :: rest =>
    match sensors.find? (fun s => attrMatches s sensorProp aliases) with
    | some s => some s._id
    | none => matchRole sensors rest

/-- `findSensorIds` from `lib/decoding/helpers.js`: for each phenomenon of
`sensorMatchings` (in order), resolve a sensor `_id` via `matchRole`;
unmatched phenomena are left out of the result map. -/
def findSensorIds (sensors : List Sensor)
    (sensorMatchings : List (String × List (String × List String))) :
    List (String × String) :=
  sensorMatchings.foldl (fun sensorMap p =>
    match matchRole sensors p.2 with
    | some i => sensorMap ++ [(p.1, i)]
    | none => sensorMap) []

/-- Spec-side formulation of `findSensorIds` resolution: every role is
resolved independently over the full sensor list, and unmatched roles
contribute nothing. Used to compare against `findSensorIds`. -/
def resolveRolesIndependently (sensors : List Sensor) :
    List (String × List (String × List String)) → List (String × String)
  | [] => []
  | (role, props) :: rest =>
    (match matchRole sensors props with
     | some i => [(role, i)]
     | none => []) ++ resolveRolesIndependently sensors rest

/-! ### Measurements and `applyValueFromMeasurement`
(lib/decoding/helpers.js, lines 98-125) -/

/-- A decoded measurement: `sensor_id`, `value`, and any extra attributes
set on the JS object by hooks (e.g. `createdAt`), as an association list.
`α` is the type of values (numbers, date strings, ...). -/
structure Measurement (α : Type) where
  sensor_id : String
  value : α
  attrs : List (String × α)
deriving DecidableEq

/-- JS `obj[property] = value` on the extra attributes: overwrite the
existing binding or append a new one. -/
def setKey {α : Type} : List (String × α) → String → α → List (String × α)
  | [], p, v => [(p, v)]
  | (q, w) :: rest, p, v =>
    if q = p then (p, v) :: rest else (q, w) :: setKey rest p v

/-- Assign an extra attribute on a measurement (JS `m[property] = value`). -/
def Measurement.setAttr {α : Type} (m : Measurement α) (p : String) (v : α) :
    Measurement α :=
  { m with attrs := setKey m.attrs p v }

/-- Read an extra attribute of a measurement (JS `m[property]`). -/
def Measurement.getAttr {α : Type} (m : Measurement α) (p : String) : Option α :=
  m.attrs.lookup p

/-- The projection of a measurement that propagation hooks never change:
its `sensor_id` and its `value`. -/
def Measurement.core {α : Type} (m : Measurement α) : String × α :=
  (m.sensor_id, m.value)

/-- `transformer ? transformer(value) : value`. -/
def applyTransform {α : Type} (transformer : Option (α → α)) (v : α) : α :=
  match transformer with
  | some f => f v
  | none => v

/-- The `while` loop of the hook: assign `property = v` on each following
measurement until the next measurement with `sensor_id = sensorId` is
reached (that one and everything after it are left untouched). -/
def propagateValue {α : Type} (sensorId property : String) (v : α) :
    List (Measurement α) → List (Measurement α)
  | [] => []
  | m :: rest =>
    if m.sensor_id = sensorId then m :: rest
    else m.setAttr property v :: propagateValue sensorId property v rest

/-- The hook built by `applyValueFromMeasurement` in
`lib/decoding/helpers.js`: find the first measurement with the given
`sensorId`, remove it, and propagate its (optionally transformed) value
onto the following measurements up to the next occurrence of `sensorId`. -/
def applyValueFromMeasurement {α : Type} (sensorId property : String)
    (transformer : Option (α → α)) :
    List (Measurement α) → List (Measurement α)
  | [] => []
  | m :: rest =>
    if m.sensor_id = sensorId then
      propagateValue sensorId property (applyTransform transformer m.value) rest
    else m :: applyValueFromMeasurement sensorId property transformer rest

/-! ### `bufferToMeasurements` and `decodeBuffer`
(lib/decoding/index.js, lines 70-145) -/

/-- One element of a `bufferTransformer`: byte count, target `sensor_id`,
decode function for the sliced bytes, and an optional `onResult` hook. -/
structure Mask (α : Type) where
  bytes : Nat
  sensorId : String
  transformer : List Nat → α
  onResult : Option (List (Measurement α) → List (Measurement α))

/-- The first loop of `bufferToMeasurements`: sum of the `bytes` fields. -/
def maskLength {α : Type} (bufferTransformer : List (Mask α)) : Nat :=
  bufferTransformer.foldl (fun acc mask => acc + mask.bytes) 0

/-- The second loop of `bufferToMeasurements`: slice
`buffer[currByte .. currByte + mask.bytes)` for each mask in order and
decode it with the mask's transformer. -/
def decodeSegments {α : Type} (buffer : List Nat) :
    List (Mask α) → Nat → List (Measurement α)
  | [], _ => []
  | mask :: rest, currByte =>
    { sensor_id := mask.sensorId
      value := mask.transformer ((buffer.drop currByte).take mask.bytes)
      attrs := [] } :: decodeSegments buffer rest (currByte + mask.bytes)

/-- The third loop of `bufferToMeasurements`: run every mask's `onResult`
hook, in mask order, over the full measurement list. -/
def runHooks {α : Type} (bufferTransformer : List (Mask α))
    (result : List (Measurement α)) : List (Measurement α) :=
  bufferTransformer.foldl (fun ms mask =>
    match mask.onResult with
    | some hook => hook ms
    | none => ms) result

/-- `bufferToMeasurements` from `lib/decoding/index.js`: validate the
total declared byte length against the buffer length (throwing the
length-mismatch error before any segment is decoded), then decode all
segments, then run the hooks. -/
def bufferToMeasurements {α : Type} (buffer : List Nat)
    (bufferTransformer : List (Mask α)) :
    Except String (List (Measurement α)) :=
  if maskLength bufferTransformer ≠ buffer.length then
    .error ("incorrect amount of bytes, should be " ++ toString (maskLength bufferTransformer))
  else
    .ok (runHooks bufferTransformer (decodeSegments buffer bufferTransformer 0))

/-- JS truthiness of an optional attribute: an absent attribute is falsy,
a present one is as falsy as its value (`falsy` models JS `ToBoolean` on
the value type `α`; e.g. the empty string is falsy). -/
def isFalsyOpt {α : Type} (falsy : α → Bool) : Option α → Bool
  | none => true
  | some v => falsy v

/-- The timestamp-stamping step of `decodeBuffer`
(`if (timestamp && measurements.length && !measurements[0].createdAt)`):
when a truthy timestamp was supplied, the list is non-empty, and the
first measurement's `createdAt` is falsy, set `createdAt` on every
measurement. -/
def stampMeasurements {α : Type} (falsy : α → Bool) (timestamp : Option α)
    (measurements : List (Measurement α)) : List (Measurement α) :=
  match timestamp, measurements with
  | some t, m0 :: _ =>
    if !falsy t && isFalsyOpt falsy (m0.getAttr "createdAt") then
      measurements.map (fun m => m.setAttr "createdAt" t)
    else
      measurements
  | _, _ => measurements

/-- The `ttn` block of a box's integrations config. -/
structure TtnConfig where
  profile : String

/-- A box's `integrations` object. -/
structure Integrations where
  ttn : Option TtnConfig

/-- The part of a box record that `decodeBuffer` reads. -/
structure Box where
  sensors : List Sensor
  integrations : Option Integrations

/-- `decodeBuffer` from `lib/decoding/index.js`, with the profile registry
abstracted as a lookup function (the profile modules are out of scope) and
the external validator omitted (it is an external collaborator). -/
def decodeBuffer {α : Type} (profiles : String → Option (Box → List (Mask α)))
    (falsy : α → Bool) (buffer : List Nat) (box : Box) (timestamp : Option α) :
    Except String (List (Measurement α)) :=
  match box.integrations with
  | none => .error "box has no TTN configuration"
  | some ints =>
    match ints.ttn with
    | none => .error "box has no TTN configuration"
    | some ttn =>
      match profiles ttn.profile with
      | none => .error ("profile '" ++ ttn.profile ++ "' is not supported")
      | some createBufferTransformer =>
        let bufferTransformer := createBufferTransformer box
        match bufferToMeasurements buffer bufferTransformer with
        | .error e => .error e
        | .ok measurements => .ok (stampMeasurements falsy timestamp measurements)

/-- Build a hook from propagation parameters: carrier `sensorId`, target
`property`, optional transformer (the shape `applyValueFromMeasurement`
takes in the source). -/
def hookOf {α : Type} (p : String × String × Option (α → α)) :
    List (Measurement α) → List (Measurement α) :=
  applyValueFromMeasurement p.1 p.2.1 p.2.2

/-- Spec-side counter: replay a list of optional propagation hooks (in
mask order) over a measurement list and count how many of them found
their carrier in the sequence at the moment they ran. -/
def countFound {α : Type} : List (Option (String × String × Option (α → α))) →
    List (Measurement α) → Nat
  | [], _ => 0
  | none :: ps, ms => countFound ps ms
  | some p :: ps, ms =>
    (if ∃ m ∈ ms, m.sensor_id = p.1 then 1 else 0) + countFound ps (hookOf p ms)

end TtnOsem

namespace TtnOsem

/-! ## Supporting lemmas for the JS 32-bit arithmetic -/

theorem toUint32_ofNat {n : Nat} (h : n < 4294967296) : toUint32 (n : Int) = n := by
  unfold toUint32
  rw [Int.emod_eq_of_lt (by exact_mod_cast Nat.zero_le n) (by exact_mod_cast h)]
  exact Int.toNat_ofNat n

theorem int32OfUInt32_of_lt {n : Nat} (h : n < 2147483648) : int32OfUInt32 n = n := by
  unfold int32OfUInt32
  rw [if_pos h]

theorem toUint32_int32 {m : Nat} (hm : m < 4294967296) : toUint32 (int32OfUInt32 m) = m := by
  unfold int32OfUInt32
  by_cases h : m < 2147483648
  · rw [if_pos h]
    exact toUint32_ofNat hm
  · rw [if_neg h]
    unfold toUint32
    rw [Int.emod_sub_cancel]
    rw [Int.emod_eq_of_lt (by exact_mod_cast Nat.zero_le m) (by exact_mod_cast hm)]
    exact Int.toNat_ofNat m

theorem jsShl_small {b s : Nat} (hb : b < 256) (hs : s ≤ 24) :
    jsShl (b : Int) s = int32OfUInt32 (2 ^ s * b) := by
  unfold jsShl
  have hb32 : b < 4294967296 := by omega
  rw [Nat.mod_eq_of_lt (show s < 32 by omega)]
  rw [toUint32_ofNat hb32]
  rw [Nat.shiftLeft_eq]
  have hpow : (2 : Nat) ^ s ≤ 2 ^ 24 := Nat.pow_le_pow_right (by norm_num) hs
  have h1 : b * 2 ^ s < 4294967296 := by
    calc b * 2 ^ s ≤ 255 * 2 ^ 24 := Nat.mul_le_mul (show b ≤ 255 by omega) hpow
    _ < 4294967296 := by norm_num
  rw [Nat.mod_eq_of_lt h1]
  rw [Nat.mul_comm]

theorem lor_disjoint {a b k : Nat} (h : a < 2 ^ k) :
    Nat.lor a (2 ^ k * b) = 2 ^ k * b + a := by
  apply Nat.eq_of_testBit_eq
  intro j
  show (a ||| 2 ^ k * b).testBit j = (2 ^ k * b + a).testBit j
  rw [Nat.testBit_lor, Nat.testBit_mul_pow_two_add b h j, Nat.testBit_mul_pow_two]
  by_cases hj : j < k
  · have hk : ¬ (j ≥ k) := by omega
    simp [hj, hk]
  · have hk : j ≥ k := by omega
    have ha : a < 2 ^ j := lt_of_lt_of_le h (Nat.pow_le_pow_right (by norm_num) hk)
    simp [hj, hk, Nat.testBit_lt_two_pow ha]

theorem jsOr_step {a b k : Nat} (ha : a < 2 ^ k) (hk : k ≤ 24) (hb : b < 256) :
    jsOr (a : Int) (int32OfUInt32 (2 ^ k * b)) = int32OfUInt32 (2 ^ k * b + a) := by
  have hpow : (2 : Nat) ^ k ≤ 2 ^ 24 := Nat.pow_le_pow_right (by norm_num) hk
  have ha32 : a < 4294967296 := by omega
  have hb32 : 2 ^ k * b < 4294967296 := by
    calc 2 ^ k * b ≤ 2 ^ 24 * 255 := Nat.mul_le_mul hpow (show b ≤ 255 by omega)
    _ < 4294967296 := by norm_num
  unfold jsOr
  rw [toUint32_ofNat ha32, toUint32_int32 hb32, lor_disjoint ha]

theorem bytesToIntAux_eq : ∀ (rest : List Nat) (i acc : Nat),
    (∀ b ∈ rest, b < 256) → acc < 2 ^ (8 * i) → acc < 2147483648 →
    i + rest.length ≤ 4 →
    bytesToIntAux rest i ((acc : Nat) : Int) = int32OfUInt32 (acc + 2 ^ (8 * i) * leSum rest)
  | [], i, acc, _, _, hacc31, _ => by
    show ((acc : Nat) : Int) = int32OfUInt32 (acc + 2 ^ (8 * i) * leSum [])
    rw [show leSum [] = 0 from rfl, Nat.mul_zero, Nat.add_zero, int32OfUInt32_of_lt hacc31]
  | b :: tail, i, acc, hb, hacc, hacc31, hlen => by
    have hb' : b < 256 := hb b (List.mem_cons_self b tail)
    have hbtail : ∀ x ∈ tail, x < 256 := fun x hx => hb x (List.mem_cons_of_mem b hx)
    have hi : i ≤ 3 := by
      have := List.length_cons b tail
      omega
    show bytesToIntAux tail (i + 1) (jsOr ((acc : Nat) : Int) (jsShl ((b : Nat) : Int) (i * 8)))
        = int32OfUInt32 (acc + 2 ^ (8 * i) * leSum (b :: tail))
    rw [jsShl_small hb' (show i * 8 ≤ 24 by omega)]
    rw [show i * 8 = 8 * i from Nat.mul_comm i 8]
    rw [jsOr_step hacc (show 8 * i ≤ 24 by omega) hb']
    have ht : (0 : Nat) < 2 ^ (8 * i) := Nat.two_pow_pos (8 * i)
    have hmul : 2 ^ (8 * i) * b ≤ 2 ^ (8 * i) * 255 := Nat.mul_le_mul_left _ (by omega)
    have hA : 2 ^ (8 * i) * b + acc < 2 ^ (8 * (i + 1)) := by
      rw [show 8 * (i + 1) = 8 * i + 8 by ring, pow_add]
      have h8 : (2 : Nat) ^ 8 = 256 := by norm_num
      rw [h8]
      omega
    match tail with
    | [] =>
      show int32OfUInt32 (2 ^ (8 * i) * b + acc)
          = int32OfUInt32 (acc + 2 ^ (8 * i) * leSum [b])
      congr 1
      show 2 ^ (8 * i) * b + acc = acc + 2 ^ (8 * i) * (b + 256 * leSum [])
      rw [show leSum [] = 0 from rfl]
      ring
    | c :: tail' =>
      have hi2 : i ≤ 2 := by
        have := List.length_cons c tail'
        simp only [List.length_cons] at hlen
        omega
      have hA31 : 2 ^ (8 * i) * b + acc < 2147483648 := by
        have : (2 : Nat) ^ (8 * (i + 1)) ≤ 2 ^ 24 := Nat.pow_le_pow_right (by norm_num) (by omega)
        omega
      rw [int32OfUInt32_of_lt hA31]
      rw [bytesToIntAux_eq (c :: tail') (i + 1) (2 ^ (8 * i) * b + acc) hbtail hA hA31
        (by simp only [List.length_cons] at hlen ⊢; omega)]
      congr 1
      show 2 ^ (8 * i) * b + acc + 2 ^ (8 * (i + 1)) * leSum (c :: tail')
          = acc + 2 ^ (8 * i) * (b + 256 * leSum (c :: tail'))
      rw [show 8 * (i + 1) = 8 * i + 8 by ring, pow_add]
      ring

theorem leSum_lt : ∀ (bs : List Nat), (∀ b ∈ bs, b < 256) → leSum bs < 2 ^ (8 * bs.length)
  | [], _ => by simp [leSum]
  | b :: rest, hb => by
    have hb' : b < 256 := hb b (List.mem_cons_self b rest)
    have ih := leSum_lt rest (fun x hx => hb x (List.mem_cons_of_mem b hx))
    show b + 256 * leSum rest < 2 ^ (8 * (rest.length + 1))
    rw [show 8 * (rest.length + 1) = 8 * rest.length + 8 by ring, pow_add]
    have h8 : (2 : Nat) ^ 8 = 256 := by norm_num
    rw [h8]
    omega

/-- C2 (amended): for every byte sequence of length at most 4 whose
entries are bytes, `bytesToInt` returns the little-endian sum
`Σ byte[i]·2^(8·i)` reduced to a signed 32-bit integer (because JS `|`
and `<<` work on Int32): for lengths up to 3 this is exactly the
unsigned little-endian sum, but a 4-byte input whose top byte is ≥ 0x80
yields the sum minus 2^32 (sign wrap), so the behaviour is not identical
across lengths 1–4 as claimed. -/
theorem bytesToInt_littleEndian (bs : List Nat) (hlen : bs.length ≤ 4)
    (hb : ∀ b ∈ bs, b < 256) :
    bytesToInt bs = int32OfUInt32 (leSum bs) ∧
    (bs.length ≤ 3 → bytesToInt bs = (leSum bs : Int)) := by
  have key : bytesToInt bs = int32OfUInt32 (leSum bs) := by
    have h := bytesToIntAux_eq bs 0 0 hb (by norm_num) (by norm_num) (by omega)
    simpa [bytesToInt] using h
  refine ⟨key, fun h3 => ?_⟩
  have hlt : leSum bs < 2147483648 := by
    have h1 := leSum_lt bs hb
    have hp : (2 : Nat) ^ (8 * bs.length) ≤ 2 ^ 24 := Nat.pow_le_pow_right (by norm_num) (by omega)
    omega
  rw [key, int32OfUInt32_of_lt hlt]

/-- C2 counterexample: on the 4-byte input `[0x00, 0x00, 0x00, 0x80]`,
`bytesToInt` returns `-2147483648`, not the unsigned little-endian sum
`0x80·2^24 = 2147483648` the claim prescribes: the JS 32-bit `|` sign
extends the fourth byte. -/
theorem bytesToInt_not_unsigned :
    bytesToInt [0, 0, 0, 128] = -2147483648 ∧
    bytesToInt [0, 0, 0, 128] ≠ (0 * 2 ^ 0 + 0 * 2 ^ 8 + 0 * 2 ^ 16 + 128 * 2 ^ 24 : Int) :=
  ⟨by decide, by decide⟩

/-- Witness for `bytesToInt_littleEndian` at the spec's own example
`bytesToInt([0xFF, 0x00]) = 255`. -/
theorem bytesToInt_littleEndian_witness :
    bytesToInt [255, 0] = int32OfUInt32 (leSum [255, 0]) ∧
    bytesToInt [255, 0] = (leSum [255, 0] : Int) :=
  ⟨(bytesToInt_littleEndian [255, 0] (by decide) (by decide)).1,
   (bytesToInt_littleEndian [255, 0] (by decide) (by decide)).2 (by decide)⟩

end TtnOsem

namespace TtnOsem

/-! ## Length validation in `bufferToMeasurements` -/

/-- C1: whenever the sum of the transformer segments' byte lengths
differs from the buffer length, `bufferToMeasurements` fails with the
length-mismatch error whose message states the declared total length,
and produces no measurements (the error is returned before any segment
transformer is invoked; the result is an `error`, not a partial list). -/
theorem bufferToMeasurements_length_mismatch {α : Type} (buffer : List Nat)
    (bufferTransformer : List (Mask α))
    (h : maskLength bufferTransformer ≠ buffer.length) :
    bufferToMeasurements buffer bufferTransformer =
      .error ("incorrect amount of bytes, should be "
        ++ toString (maskLength bufferTransformer)) := by
  unfold bufferToMeasurements
  rw [if_pos h]

/-- Witness for `bufferToMeasurements_length_mismatch`: a 1-byte buffer
against a transformer declaring 2 bytes. -/
theorem bufferToMeasurements_length_mismatch_witness :
    bufferToMeasurements [1] [⟨2, "s1", fun _ => (0 : Int), none⟩] =
      .error "incorrect amount of bytes, should be 2" :=
  bufferToMeasurements_length_mismatch [1] [⟨2, "s1", fun _ => (0 : Int), none⟩] (by decide)

/-! ## Behaviour of the value-propagation hook -/

theorem applyValueFromMeasurement_no_carrier {α : Type} (sensorId property : String)
    (transformer : Option (α → α)) :
    ∀ ms : List (Measurement α), (∀ m ∈ ms, m.sensor_id ≠ sensorId) →
      applyValueFromMeasurement sensorId property transformer ms = ms := by
  intro ms
  induction ms with
  | nil => intro _; rfl
  | cons m rest ih =>
    intro h
    have hm : m.sensor_id ≠ sensorId := h m (List.mem_cons_self m rest)
    simp only [applyValueFromMeasurement, if_neg hm]
    rw [ih (fun x hx => h x (List.mem_cons_of_mem m hx))]

theorem propagateValue_no_carrier {α : Type} (sensorId property : String) (v : α) :
    ∀ mid : List (Measurement α), (∀ m ∈ mid, m.sensor_id ≠ sensorId) →
      propagateValue sensorId property v mid = mid.map (fun m => m.setAttr property v) := by
  intro mid
  induction mid with
  | nil => intro _; rfl
  | cons m rest ih =>
    intro h
    have hm : m.sensor_id ≠ sensorId := h m (List.mem_cons_self m rest)
    simp only [propagateValue, if_neg hm, List.map_cons]
    rw [ih (fun x hx => h x (List.mem_cons_of_mem m hx))]

theorem propagateValue_stops {α : Type} (sensorId property : String) (v : α)
    (c2 : Measurement α) (rest : List (Measurement α)) (hc2 : c2.sensor_id = sensorId) :
    ∀ mid : List (Measurement α), (∀ m ∈ mid, m.sensor_id ≠ sensorId) →
      propagateValue sensorId property v (mid ++ c2 :: rest)
        = mid.map (fun m => m.setAttr property v) ++ c2 :: rest := by
  intro mid
  induction mid with
  | nil =>
    intro _
    simp only [List.nil_append, List.map_nil, propagateValue, if_pos hc2]
  | cons m mid' ih =>
    intro h
    have hm : m.sensor_id ≠ sensorId := h m (List.mem_cons_self m mid')
    simp only [List.cons_append, propagateValue, if_neg hm, List.map_cons, List.append_eq]
    rw [ih (fun x hx => h x (List.mem_cons_of_mem m hx))]

theorem applyValueFromMeasurement_found {α : Type} (sensorId property : String)
    (transformer : Option (α → α)) (c : Measurement α) (post : List (Measurement α))
    (hc : c.sensor_id = sensorId) :
    ∀ pre : List (Measurement α), (∀ m ∈ pre, m.sensor_id ≠ sensorId) →
      applyValueFromMeasurement sensorId property transformer (pre ++ c :: post)
        = pre ++ propagateValue sensorId property (applyTransform transformer c.value) post := by
  intro pre
  induction pre with
  | nil =>
    intro _
    simp only [List.nil_append, applyValueFromMeasurement, if_pos hc]
  | cons m pre' ih =>
    intro h
    have hm : m.sensor_id ≠ sensorId := h m (List.mem_cons_self m pre')
    simp only [List.cons_append, applyValueFromMeasurement, if_neg hm, List.append_eq]
    rw [ih (fun x hx => h x (List.mem_cons_of_mem m hx))]

theorem propagateValue_map_core {α : Type} (sensorId property : String) (v : α) :
    ∀ l : List (Measurement α),
      (propagateValue sensorId property v l).map Measurement.core = l.map Measurement.core
  | [] => rfl
  | m :: rest => by
    by_cases h : m.sensor_id = sensorId
    · simp only [propagateValue, if_pos h]
    · simp only [propagateValue, if_neg h, List.map_cons]
      rw [propagateValue_map_core sensorId property v rest]
      rfl

theorem applyValueFromMeasurement_map_core {α : Type} (sensorId property : String)
    (transformer : Option (α → α)) :
    ∀ ms : List (Measurement α),
      (applyValueFromMeasurement sensorId property transformer ms).map Measurement.core
        = (ms.eraseP (fun m => decide (m.sensor_id = sensorId))).map Measurement.core
  | [] => rfl
  | m :: rest => by
    by_cases h : m.sensor_id = sensorId
    · simp only [applyValueFromMeasurement, if_pos h, List.eraseP_cons, h, decide_True, cond_true]
      exact propagateValue_map_core sensorId property (applyTransform transformer m.value) rest
    · have e1 : applyValueFromMeasurement sensorId property transformer (m :: rest)
          = m :: applyValueFromMeasurement sensorId property transformer rest := by
        simp only [applyValueFromMeasurement, if_neg h]
      have e2 : List.eraseP (fun m => decide (m.sensor_id = sensorId)) (m :: rest)
          = m :: List.eraseP (fun m => decide (m.sensor_id = sensorId)) rest := by
        simp [List.eraseP_cons, h]
      rw [e1, e2, List.map_cons, List.map_cons,
        applyValueFromMeasurement_map_core sensorId property transformer rest]

/-- C3: the hook built by `applyValueFromMeasurement` (i) leaves a
sequence without the carrier `sensorId` unchanged, and (ii) on
`pre ++ c :: mid` with the first carrier `c`, removes `c`, computes the
value by applying the optional transformer to `c.value`, and assigns it
to the `property` of every entry of `mid` — up to the end of the list,
or, in the `pre ++ c :: (mid ++ c2 :: rest)` case, up to but excluding
the next carrier `c2`, which (with everything after it) is left
untouched, so a single invocation processes only the first carrier; with
`mid = []` a carrier that is last is removed and nothing is annotated. -/
theorem hook_spec {α : Type} (sensorId property : String) (transformer : Option (α → α)) :
    (∀ ms : List (Measurement α), (∀ m ∈ ms, m.sensor_id ≠ sensorId) →
        applyValueFromMeasurement sensorId property transformer ms = ms)
  ∧ (∀ (pre mid : List (Measurement α)) (c : Measurement α),
        c.sensor_id = sensorId →
        (∀ m ∈ pre, m.sensor_id ≠ sensorId) →
        (∀ m ∈ mid, m.sensor_id ≠ sensorId) →
        applyValueFromMeasurement sensorId property transformer (pre ++ c :: mid)
            = pre ++ mid.map (fun m => m.setAttr property (applyTransform transformer c.value))
        ∧ ∀ (c2 : Measurement α) (rest : List (Measurement α)), c2.sensor_id = sensorId →
            applyValueFromMeasurement sensorId property transformer
                (pre ++ c :: (mid ++ c2 :: rest))
              = pre ++ (mid.map (fun m => m.setAttr property (applyTransform transformer c.value))
                  ++ c2 :: rest)) := by
  refine ⟨applyValueFromMeasurement_no_carrier sensorId property transformer, ?_⟩
  intro pre mid c hc hpre hmid
  constructor
  · rw [applyValueFromMeasurement_found sensorId property transformer c mid hc pre hpre]
    rw [propagateValue_no_carrier sensorId property _ mid hmid]
  · intro c2 rest hc2
    rw [applyValueFromMeasurement_found sensorId property transformer c (mid ++ c2 :: rest) hc pre hpre]
    rw [propagateValue_stops sensorId property _ c2 rest hc2 mid hmid]

/-- Witness for `hook_spec`: carrier first, one following measurement. -/
theorem hook_spec_witness :
    applyValueFromMeasurement "t" "p" (none : Option (Int → Int))
        ([] ++ (⟨"t", 7, []⟩ : Measurement Int) :: [⟨"x", 1, []⟩])
      = [] ++ [(⟨"x", 1, []⟩ : Measurement Int)].map
          (fun m => m.setAttr "p" (applyTransform none (7 : Int))) :=
  ((hook_spec "t" "p" none).2 [] [⟨"x", 1, []⟩] ⟨"t", 7, []⟩ rfl (by decide) (by decide)).1

/-- C4 counterexample: on the spec's example input, a single hook
invocation does NOT stamp `'y'` (the entry after the second carrier):
the inner loop stops at the second carrier, so the claimed output
`[{x,5,createdAt:100}, {t,200}, {y,6,createdAt:100}]` is wrong. -/
theorem hook_single_invocation_counterexample :
    applyValueFromMeasurement "t" "createdAt" (none : Option (Int → Int))
        [⟨"t", 100, []⟩, ⟨"x", 5, []⟩, ⟨"t", 200, []⟩, ⟨"y", 6, []⟩]
      ≠ [⟨"x", 5, [("createdAt", 100)]⟩, ⟨"t", 200, []⟩, ⟨"y", 6, [("createdAt", 100)]⟩] := by
  decide

/-- C4 (amended): the hook for carrier `'t'` and attribute `'createdAt'`
applied once to `[{t,100}, {x,5}, {t,200}, {y,6}]` yields
`[{x,5,createdAt:100}, {t,200}, {y,6}]`: the second carrier is not
consumed and remains a measurement, and `'y'` after it is NOT stamped
(annotation stops at the second carrier). -/
theorem hook_single_invocation :
    applyValueFromMeasurement "t" "createdAt" (none : Option (Int → Int))
        [⟨"t", 100, []⟩, ⟨"x", 5, []⟩, ⟨"t", 200, []⟩, ⟨"y", 6, []⟩]
      = [⟨"x", 5, [("createdAt", 100)]⟩, ⟨"t", 200, []⟩, ⟨"y", 6, []⟩] := by
  decide

/-- C7: the hook never reorders measurements: projected to
(`sensor_id`, `value`) pairs, its output is exactly the input with the
first carrier occurrence erased (`List.eraseP`) — same entries, same
relative order, whatever the input; moreover entries from the second
carrier onwards are untouched entirely, so annotation happens only
strictly between consecutive carrier occurrences. -/
theorem hook_no_reorder {α : Type} (sensorId property : String)
    (transformer : Option (α → α)) :
    (∀ ms : List (Measurement α),
        (applyValueFromMeasurement sensorId property transformer ms).map Measurement.core
          = (ms.eraseP (fun m => decide (m.sensor_id = sensorId))).map Measurement.core)
  ∧ (∀ (pre mid rest : List (Measurement α)) (c c2 : Measurement α),
        c.sensor_id = sensorId → c2.sensor_id = sensorId →
        (∀ m ∈ pre, m.sensor_id ≠ sensorId) →
        (∀ m ∈ mid, m.sensor_id ≠ sensorId) →
        applyValueFromMeasurement sensorId property transformer
            (pre ++ c :: (mid ++ c2 :: rest))
          = pre ++ (mid.map (fun m => m.setAttr property (applyTransform transformer c.value))
              ++ c2 :: rest)) := by
  refine ⟨applyValueFromMeasurement_map_core sensorId property transformer, ?_⟩
  intro pre mid rest c c2 hc hc2 hpre hmid
  rw [applyValueFromMeasurement_found sensorId property transformer c (mid ++ c2 :: rest) hc pre hpre]
  rw [propagateValue_stops sensorId property _ c2 rest hc2 mid hmid]

/-- Witness for `hook_no_reorder` on a concrete two-element list. -/
theorem hook_no_reorder_witness :
    (applyValueFromMeasurement "t" "p" (none : Option (Int → Int))
        [⟨"a", 1, []⟩, ⟨"t", 2, []⟩]).map Measurement.core
      = (([⟨"a", 1, []⟩, ⟨"t", 2, []⟩] : List (Measurement Int)).eraseP
          (fun m => decide (m.sensor_id = "t"))).map Measurement.core :=
  (hook_no_reorder "t" "p" (none : Option (Int → Int))).1 [⟨"a", 1, []⟩, ⟨"t", 2, []⟩]

end TtnOsem

namespace TtnOsem

/-! ## Sensor matching -/

theorem findSensorIds_foldl (sensors : List Sensor) :
    ∀ (spec : List (String × List (String × List String))) (acc : List (String × String)),
      spec.foldl (fun sensorMap p =>
        match matchRole sensors p.2 with
        | some i => sensorMap ++ [(p.1, i)]
        | none => sensorMap) acc
      = acc ++ resolveRolesIndependently sensors spec
  | [], acc => by simp [resolveRolesIndependently]
  | (role, props) :: rest, acc => by
    simp only [List.foldl_cons]
    cases h : matchRole sensors props with
    | some i =>
      rw [findSensorIds_foldl sensors rest (acc ++ [(role, i)])]
      simp [resolveRolesIndependently, h]
    | none =>
      rw [findSensorIds_foldl sensors rest acc]
      simp [resolveRolesIndependently, h]

theorem findSensorIds_eq_resolve (sensors : List Sensor)
    (spec : List (String × List (String × List String))) :
    findSensorIds sensors spec = resolveRolesIndependently sensors spec := by
  unfold findSensorIds
  rw [findSensorIds_foldl sensors spec []]
  simp

theorem resolve_append (sensors : List Sensor) :
    ∀ (l₁ l₂ : List (String × List (String × List String))),
      resolveRolesIndependently sensors (l₁ ++ l₂)
        = resolveRolesIndependently sensors l₁ ++ resolveRolesIndependently sensors l₂
  | [], l₂ => by simp [resolveRolesIndependently]
  | (role, props) :: rest, l₂ => by
    simp only [List.cons_append, resolveRolesIndependently, List.append_eq]
    rw [resolve_append sensors rest l₂]
    cases matchRole sensors props <;> simp

theorem lookup_resolve_skip (sensors : List Sensor) (role : String) :
    ∀ (spec : List (String × List (String × List String))),
      role ∉ spec.map Prod.fst →
      ∀ (tail : List (String × String)),
        List.lookup role (resolveRolesIndependently sensors spec ++ tail)
          = List.lookup role tail
  | [], _, tail => by simp [resolveRolesIndependently]
  | (r, props) :: rest, h, tail => by
    have hr : role ≠ r := by
      intro he
      exact h (by simp [he])
    have hrest : role ∉ rest.map Prod.fst := by
      intro he
      exact h (by simp [he])
    simp only [resolveRolesIndependently]
    cases matchRole sensors props with
    | some i =>
      have hbeq : (role == r) = false := beq_eq_false_iff_ne.mpr hr
      simp only [List.cons_append, List.nil_append, List.lookup, hbeq]
      exact lookup_resolve_skip sensors role rest hrest tail
    | none =>
      simp only [List.nil_append]
      exact lookup_resolve_skip sensors role rest hrest tail

theorem matchRole_skip (sensors : List Sensor) :
    ∀ (props₁ ps : List (String × List String)),
      (∀ p ∈ props₁, ∀ sen ∈ sensors, attrMatches sen p.1 p.2 = false) →
      matchRole sensors (props₁ ++ ps) = matchRole sensors ps
  | [], _, _ => rfl
  | (pn, al) :: props₁', ps, h => by
    have hfind : sensors.find? (fun s => attrMatches s pn al) = none := by
      apply List.find?_eq_none.mpr
      intro x hx
      have hx2 := h (pn, al) (List.mem_cons_self _ _) x hx
      simp [hx2]
    simp only [List.cons_append, matchRole]
    rw [hfind]
    exact matchRole_skip sensors props₁' ps (fun p hp => h p (List.mem_cons_of_mem _ hp))

theorem find?_prefix_false {p : Sensor → Bool} :
    ∀ (l₁ l₂ : List Sensor), (∀ x ∈ l₁, p x = false) →
      (l₁ ++ l₂).find? p = l₂.find? p
  | [], _, _ => rfl
  | x :: l₁', l₂, h => by
    have hx : p x = false := h x (List.mem_cons_self _ _)
    simp only [List.cons_append, List.find?]
    rw [hx]
    exact find?_prefix_false l₁' l₂ (fun y hy => h y (List.mem_cons_of_mem _ hy))

/-- C5: `findSensorIds` resolves each role by first-match-wins. If for
role `role` the earlier candidate attributes `props₁` match no sensor at
all, and for the attribute `(propName, aliases)` the sensors `ss₁`
before `s` do not match while `s` does, then the role is mapped to
`s._id` — regardless of the later attributes `props₂` (a match
short-circuits the remaining attributes of the role) and of the later
sensors `ss₂` (the scan stops at the first matching sensor); ties are
thus resolved by input order, never by a score. `attrMatches` is the
case-insensitive alias comparison of the source. -/
theorem findSensorIds_first_match
    (ss₁ ss₂ : List Sensor) (s : Sensor)
    (spec₁ spec₂ : List (String × List (String × List String)))
    (role : String) (props₁ props₂ : List (String × List String))
    (propName : String) (aliases : List String)
    (hrole : role ∉ spec₁.map Prod.fst)
    (hprops₁ : ∀ p ∈ props₁, ∀ sen ∈ ss₁ ++ s :: ss₂, attrMatches sen p.1 p.2 = false)
    (hss₁ : ∀ sen ∈ ss₁, attrMatches sen propName aliases = false)
    (hs : attrMatches s propName aliases = true) :
    List.lookup role (findSensorIds (ss₁ ++ s :: ss₂)
        (spec₁ ++ (role, props₁ ++ (propName, aliases) :: props₂) :: spec₂))
      = some s._id := by
  rw [findSensorIds_eq_resolve, resolve_append,
    lookup_resolve_skip (ss₁ ++ s :: ss₂) role spec₁ hrole]
  have hf : (ss₁ ++ s :: ss₂).find? (fun se => attrMatches se propName aliases) = some s := by
    rw [find?_prefix_false ss₁ (s :: ss₂) hss₁]
    exact List.find?_cons_of_pos _ hs
  have hmr : matchRole (ss₁ ++ s :: ss₂) (props₁ ++ (propName, aliases) :: props₂)
      = some s._id := by
    rw [matchRole_skip (ss₁ ++ s :: ss₂) props₁ _ hprops₁]
    simp only [matchRole]
    rw [hf]
  simp only [resolveRolesIndependently, hmr]
  simp [List.lookup]

/-- Witness for `findSensorIds_first_match` on a single sensor and role. -/
theorem findSensorIds_first_match_witness :
    List.lookup "humidity" (findSensorIds ([] ++ (⟨"a", [("title", "Humidity")]⟩ : Sensor) :: [])
        ([] ++ ("humidity", [] ++ ("title", ["humidity"]) :: []) :: []))
      = some (Sensor._id ⟨"a", [("title", "Humidity")]⟩) :=
  findSensorIds_first_match [] [] ⟨"a", [("title", "Humidity")]⟩ [] []
    "humidity" [] [] "title" ["humidity"]
    (by decide) (by decide) (by decide) (by decide)

theorem matchRole_eq_none (sensors : List Sensor) (props : List (String × List String))
    (h : ∀ a ∈ props, ∀ sen ∈ sensors, attrMatches sen a.1 a.2 = false) :
    matchRole sensors props = none := by
  have hs := matchRole_skip sensors props [] h
  rwa [List.append_nil] at hs

theorem lookup_resolve_none (sensors : List Sensor) (role : String) :
    ∀ spec : List (String × List (String × List String)),
      (∀ p ∈ spec, p.1 = role → matchRole sensors p.2 = none) →
      List.lookup role (resolveRolesIndependently sensors spec) = none
  | [], _ => rfl
  | (r, props) :: rest, h => by
    have hrest : ∀ p ∈ rest, p.1 = role → matchRole sensors p.2 = none :=
      fun p hp => h p (List.mem_cons_of_mem _ hp)
    cases hmr : matchRole sensors props with
    | none =>
      simp only [resolveRolesIndependently, hmr, List.nil_append]
      exact lookup_resolve_none sensors role rest hrest
    | some i =>
      have hr : role ≠ r := by
        intro he
        have hnone := h (r, props) (List.mem_cons_self _ _) he.symm
        rw [hmr] at hnone
        exact Option.noConfusion hnone
      have hbeq : (role == r) = false := beq_eq_false_iff_ne.mpr hr
      simp only [resolveRolesIndependently, hmr, List.cons_append, List.nil_append,
        List.lookup, hbeq]
      exact lookup_resolve_none sensors role rest hrest

/-- C6: for every sensor list and matching spec, a role for which no
candidate attribute of any sensor matches is simply absent from the
mapping returned by `findSensorIds` (its lookup is `none`) — no error is
raised; and on the spec's example — sensors `Humidity`/`Pressure` and
roles `humidity` (alias `humidity`) and `temperature` (alias `temp`) —
the result is exactly `{humidity: 'a'}` with `temperature` absent. -/
theorem findSensorIds_unmatched_role_absent :
    (∀ (sensors : List Sensor) (spec : List (String × List (String × List String)))
        (role : String),
        (∀ p ∈ spec, p.1 = role → ∀ a ∈ p.2, ∀ sen ∈ sensors, attrMatches sen a.1 a.2 = false) →
        List.lookup role (findSensorIds sensors spec) = none)
    ∧ findSensorIds [⟨"a", [("title", "Humidity")]⟩, ⟨"b", [("title", "Pressure")]⟩]
        [("humidity", [("title", ["humidity"])]), ("temperature", [("title", ["temp"])])]
      = [("humidity", "a")]
    ∧ List.lookup "temperature"
        (findSensorIds [⟨"a", [("title", "Humidity")]⟩, ⟨"b", [("title", "Pressure")]⟩]
          [("humidity", [("title", ["humidity"])]), ("temperature", [("title", ["temp"])])])
      = none := by
  refine ⟨?_, by decide, by decide⟩
  intro sensors spec role h
  rw [findSensorIds_eq_resolve]
  exact lookup_resolve_none sensors role spec
    (fun p hp he => matchRole_eq_none sensors p.2 (h p hp he))

/-- Witness for `findSensorIds_unmatched_role_absent`: the universal part
applied at the spec's example, hypotheses discharged by evaluation. -/
theorem findSensorIds_unmatched_role_absent_witness :
    List.lookup "temperature"
        (findSensorIds [⟨"a", [("title", "Humidity")]⟩, ⟨"b", [("title", "Pressure")]⟩]
          [("humidity", [("title", ["humidity"])]), ("temperature", [("title", ["temp"])])])
      = none :=
  findSensorIds_unmatched_role_absent.1
    [⟨"a", [("title", "Humidity")]⟩, ⟨"b", [("title", "Pressure")]⟩]
    [("humidity", [("title", ["humidity"])]), ("temperature", [("title", ["temp"])])]
    "temperature" (by decide)

/-- C10 (implicit): `findSensorIds` equals the role-by-role independent
resolution `resolveRolesIndependently`, i.e. every role is matched over
the FULL sensor list — an already-matched sensor is never excluded, so
two roles can resolve to the same sensor (third conjunct shows `r1` and
`r2` both mapping to sensor `b`); and a sensor whose candidate attribute
is absent or falsy (empty string) is skipped, not an error. -/
theorem findSensorIds_roles_independent :
    (∀ (sensors : List Sensor) (spec : List (String × List (String × List String))),
        findSensorIds sensors spec = resolveRolesIndependently sensors spec)
  ∧ (∀ (s : Sensor) (propName : String) (aliases : List String),
        s.getAttr propName = none ∨ s.getAttr propName = some "" →
        attrMatches s propName aliases = false)
  ∧ findSensorIds [⟨"b", [("title", "Temp")]⟩]
      [("r1", [("title", ["temp"])]), ("r2", [("title", ["temp"])])]
      = [("r1", "b"), ("r2", "b")] := by
  refine ⟨findSensorIds_eq_resolve, ?_, by decide⟩
  intro s propName aliases h
  rcases h with h | h <;> simp [attrMatches, h]

/-- Witness for `findSensorIds_roles_independent`. -/
theorem findSensorIds_roles_independent_witness :
    findSensorIds [] [] = resolveRolesIndependently [] []
    ∧ attrMatches ⟨"a", []⟩ "title" ["x"] = false :=
  ⟨findSensorIds_roles_independent.1 [] [],
   findSensorIds_roles_independent.2.1 ⟨"a", []⟩ "title" ["x"] (Or.inl rfl)⟩

end TtnOsem

namespace TtnOsem

/-! ## Measurement counts through decode and hooks -/

theorem decodeSegments_length {α : Type} (buffer : List Nat) :
    ∀ (bt : List (Mask α)) (currByte : Nat),
      (decodeSegments buffer bt currByte).length = bt.length
  | [], _ => rfl
  | mask :: rest, currByte => by
    simp only [decodeSegments, List.length_cons]
    rw [decodeSegments_length buffer rest (currByte + mask.bytes)]

theorem propagateValue_length {α : Type} (sensorId property : String) (v : α)
    (l : List (Measurement α)) :
    (propagateValue sensorId property v l).length = l.length := by
  have h := congrArg List.length (propagateValue_map_core sensorId property v l)
  simpa using h

theorem hook_length {α : Type} (sensorId property : String) (transformer : Option (α → α)) :
    ∀ ms : List (Measurement α),
      (applyValueFromMeasurement sensorId property transformer ms).length
        + (if ∃ m ∈ ms, m.sensor_id = sensorId then 1 else 0) = ms.length
  | [] => by simp [applyValueFromMeasurement]
  | m :: rest => by
    by_cases h : m.sensor_id = sensorId
    · have hex : ∃ x ∈ m :: rest, x.sensor_id = sensorId := ⟨m, List.mem_cons_self m rest, h⟩
      simp only [applyValueFromMeasurement, if_pos h, if_pos hex]
      rw [propagateValue_length]
      simp
    · have hiff : (∃ x ∈ m :: rest, x.sensor_id = sensorId)
          ↔ (∃ x ∈ rest, x.sensor_id = sensorId) := by
        constructor
        · rintro ⟨x, hx, hxs⟩
          rcases List.mem_cons.mp hx with h1 | h1
          · exact absurd (h1 ▸ hxs) h
          · exact ⟨x, h1, hxs⟩
        · rintro ⟨x, hx, hxs⟩
          exact ⟨x, List.mem_cons_of_mem m hx, hxs⟩
      have ih := hook_length sensorId property transformer rest
      simp only [applyValueFromMeasurement, if_neg h, List.length_cons]
      rw [if_congr hiff rfl rfl]
      by_cases hc : ∃ x ∈ rest, x.sensor_id = sensorId
      · simp only [if_pos hc] at ih ⊢
        omega
      · simp only [if_neg hc] at ih ⊢
        omega

theorem runHooks_length {α : Type}
    {bt : List (Mask α)} {ps : List (Option (String × String × Option (α → α)))}
    (hps : List.Forall₂ (fun (mask : Mask α) po => mask.onResult = Option.map hookOf po) bt ps) :
    ∀ ms : List (Measurement α),
      (runHooks bt ms).length + countFound ps ms = ms.length := by
  induction hps with
  | nil =>
    intro ms
    simp [runHooks, countFound]
  | @cons mask po bt' ps' hrel _ ih =>
    intro ms
    cases po with
    | none =>
      have e : runHooks (mask :: bt') ms = runHooks bt' ms := by
        simp only [runHooks, List.foldl_cons]
        rw [hrel]
        rfl
      rw [e]
      show (runHooks bt' ms).length + countFound (none :: ps') ms = ms.length
      simp only [countFound]
      exact ih ms
    | some p =>
      have e : runHooks (mask :: bt') ms = runHooks bt' (hookOf p ms) := by
        simp only [runHooks, List.foldl_cons]
        rw [hrel]
        rfl
      rw [e]
      show (runHooks bt' (hookOf p ms)).length + countFound (some p :: ps') ms = ms.length
      simp only [countFound]
      have ih2 := ih (hookOf p ms)
      have hl : (hookOf p ms).length + (if ∃ m ∈ ms, m.sensor_id = p.1 then 1 else 0)
          = ms.length := hook_length p.1 p.2.1 p.2.2 ms
      show (runHooks bt' (hookOf p ms)).length
          + ((if ∃ m ∈ ms, m.sensor_id = p.1 then 1 else 0) + countFound ps' (hookOf p ms))
        = ms.length
      by_cases hc : ∃ m ∈ ms, m.sensor_id = p.1
      · simp only [if_pos hc] at hl ⊢
        omega
      · simp only [if_neg hc] at hl ⊢
        omega

/-- C8: for a valid input (declared total equal to buffer length), the
number of measurements produced before hook processing equals the number
of transformer segments; and when every `onResult` hook is a propagation
hook (built by `applyValueFromMeasurement` with some parameters `ps`),
running the hooks decreases the count by exactly `countFound ps`, the
number of carrier matches the hooks found. -/
theorem decode_measurement_count {α : Type} (buffer : List Nat) (bt : List (Mask α))
    (ps : List (Option (String × String × Option (α → α))))
    (hlen : maskLength bt = buffer.length)
    (hps : List.Forall₂ (fun (mask : Mask α) po => mask.onResult = Option.map hookOf po) bt ps) :
    (decodeSegments buffer bt 0).length = bt.length
    ∧ (runHooks bt (decodeSegments buffer bt 0)).length
        + countFound ps (decodeSegments buffer bt 0) = bt.length := by
  have h1 := decodeSegments_length buffer bt 0
  refine ⟨h1, ?_⟩
  rw [runHooks_length hps (decodeSegments buffer bt 0), h1]

/-- Witness for `decode_measurement_count`: a 2-byte buffer, two 1-byte
segments, the first carrying a propagation hook for carrier `"t"`. -/
theorem decode_measurement_count_witness :
    (decodeSegments [7, 8]
        [⟨1, "t", fun _ => (0 : Int), some (applyValueFromMeasurement "t" "p" none)⟩,
         ⟨1, "x", fun _ => (0 : Int), none⟩] 0).length
      = ([⟨1, "t", fun _ => (0 : Int), some (applyValueFromMeasurement "t" "p" none)⟩,
          ⟨1, "x", fun _ => (0 : Int), none⟩] : List (Mask Int)).length
    ∧ (runHooks [⟨1, "t", fun _ => (0 : Int), some (applyValueFromMeasurement "t" "p" none)⟩,
          ⟨1, "x", fun _ => (0 : Int), none⟩]
        (decodeSegments [7, 8]
          [⟨1, "t", fun _ => (0 : Int), some (applyValueFromMeasurement "t" "p" none)⟩,
           ⟨1, "x", fun _ => (0 : Int), none⟩] 0)).length
      + countFound [some ("t", "p", (none : Option (Int → Int))), none]
          (decodeSegments [7, 8]
            [⟨1, "t", fun _ => (0 : Int), some (applyValueFromMeasurement "t" "p" none)⟩,
             ⟨1, "x", fun _ => (0 : Int), none⟩] 0)
      = ([⟨1, "t", fun _ => (0 : Int), some (applyValueFromMeasurement "t" "p" none)⟩,
          ⟨1, "x", fun _ => (0 : Int), none⟩] : List (Mask Int)).length :=
  decode_measurement_count [7, 8]
    [⟨1, "t", fun _ => (0 : Int), some (applyValueFromMeasurement "t" "p" none)⟩,
     ⟨1, "x", fun _ => (0 : Int), none⟩]
    [some ("t", "p", none), none]
    (by decide)
    (List.Forall₂.cons rfl (List.Forall₂.cons rfl List.Forall₂.nil))

/-! ## Timestamp stamping in `decodeBuffer` -/

/-- C9: the timestamp step of decode. (i) `decodeBuffer` applies
`stampMeasurements` to whatever `bufferToMeasurements` produced; (ii)
with a (truthy) timestamp supplied and the first measurement carrying no
`createdAt`, every measurement is stamped with that same timestamp;
(iii) if the first measurement already carries a (truthy) `createdAt`,
nothing is stamped; (iv) with no timestamp supplied, nothing is stamped.
`falsy` models JS `ToBoolean` on the value type. -/
theorem stampMeasurements_spec {α : Type} (falsy : α → Bool) (t : α)
    (ht : falsy t = false) :
    (∀ (profiles : String → Option (Box → List (Mask α))) (box : Box) (buffer : List Nat)
        (ints : Integrations) (cfg : TtnConfig) (f : Box → List (Mask α)) (ts : Option α),
        box.integrations = some ints → ints.ttn = some cfg → profiles cfg.profile = some f →
        decodeBuffer profiles falsy buffer box ts
          = (bufferToMeasurements buffer (f box)).map (stampMeasurements falsy ts))
  ∧ (∀ ms : List (Measurement α),
        (∀ m0, ms.head? = some m0 → isFalsyOpt falsy (m0.getAttr "createdAt") = true) →
        stampMeasurements falsy (some t) ms = ms.map (fun m => m.setAttr "createdAt" t))
  ∧ (∀ (m0 : Measurement α) (rest : List (Measurement α)) (c : α),
        m0.getAttr "createdAt" = some c → falsy c = false →
        stampMeasurements falsy (some t) (m0 :: rest) = m0 :: rest)
  ∧ (∀ ms : List (Measurement α), stampMeasurements falsy none ms = ms) := by
  refine ⟨?_, ?_, ?_, ?_⟩
  · intro profiles box buffer ints cfg f ts h1 h2 h3
    simp only [decodeBuffer, h1, h2, h3]
    cases bufferToMeasurements buffer (f box) <;> rfl
  · intro ms h
    cases ms with
    | nil => rfl
    | cons m0 rest =>
      have h0 := h m0 rfl
      simp only [stampMeasurements, ht, h0, Bool.not_false, Bool.and_self, if_pos]
  · intro m0 rest c hc hfc
    simp only [stampMeasurements, ht, Bool.not_false, Bool.true_and]
    rw [hc]
    simp only [isFalsyOpt, hfc]
    rfl
  · intro ms
    cases ms <;> rfl

/-- Witness for `stampMeasurements_spec` with string values, the empty
string as the only falsy value, timestamp `"T"`. -/
theorem stampMeasurements_spec_witness :
    decodeBuffer (fun _ => some (fun _ => ([] : List (Mask String))))
        (fun s => s == "") [] ⟨[], some ⟨some ⟨"p"⟩⟩⟩ (some "T")
      = (bufferToMeasurements [] ([] : List (Mask String))).map
          (stampMeasurements (fun s => s == "") (some "T"))
    ∧ stampMeasurements (fun s => s == "") (some "T")
        [(⟨"x", "1", []⟩ : Measurement String)]
      = [(⟨"x", "1", []⟩ : Measurement String)].map (fun m => m.setAttr "createdAt" "T")
    ∧ stampMeasurements (fun s => s == "") (some "T")
        [(⟨"x", "1", [("createdAt", "D")]⟩ : Measurement String)]
      = [(⟨"x", "1", [("createdAt", "D")]⟩ : Measurement String)]
    ∧ stampMeasurements (fun s => s == "") (none : Option String)
        [(⟨"x", "1", []⟩ : Measurement String)]
      = [(⟨"x", "1", []⟩ : Measurement String)] :=
  ⟨(stampMeasurements_spec (fun s => s == "") "T" rfl).1
     (fun _ => some (fun _ => [])) ⟨[], some ⟨some ⟨"p"⟩⟩⟩ [] ⟨some ⟨"p"⟩⟩ ⟨"p"⟩
     (fun _ => []) (some "T") rfl rfl rfl,
   (stampMeasurements_spec (fun s => s == "") "T" rfl).2.1 [⟨"x", "1", []⟩] (by decide),
   (stampMeasurements_spec (fun s => s == "") "T" rfl).2.2.1 ⟨"x", "1", [("createdAt", "D")]⟩ []
     "D" rfl rfl,
   (stampMeasurements_spec (fun s => s == "") "T" rfl).2.2.2 [⟨"x", "1", []⟩]⟩

end TtnOsem
